import Mathlib

/-!
Verification of the variable-resolution evaluator and detection engine of a
Terraform linter. `parseVariable` and `detectVariables` are shallow embeddings
of `evaluator/variable.go`; the detector-side entry points (`detect`,
`evalToString`, `literalToken`) are modelled from the design document, since
only their tests ship with the sources at hand.

Modelling conventions:
  * Go `interface{}` values decoded from HCL are `GoValue` (string, int, bool,
    slice, map).  A Go map is an association list with string keys; a real Go
    map has no duplicate keys, and only lookup order-independence is relied on.
  * `hilast.Variable` (a `Type` tag plus an untyped `Value`) is the sum
    `HilVariable`: the tag and the payload always travel together in the code.
  * A Go runtime panic (reflect index out of range, `Index` on a map value,
    failed type assertion) is `Option.none`; an ordinary returned `error` is
    `Except.error`.
-/

/-- Shape of a Go value produced by HCL decoding (`interface{}`). -/
inductive GoValue where
  | str (s : String)
  | int (n : Int)
  | bool (b : Bool)
  | list (xs : List GoValue)
  | assoc (kvs : List (String × GoValue))

/-- Embedding of `hilast.Variable`: the `Type` tag (`TypeString`, `TypeList`,
`TypeMap`) together with the `Value` payload stored under that tag. -/
inductive HilVariable where
  | vString (v : GoValue)
  | vList (xs : List HilVariable)
  | vMap (kvs : List (String × HilVariable))

/-- Go map read `m[k]`: the value currently bound to `k`, if any. -/
def mapLookup : List (String × HilVariable) → String → Option HilVariable
  | [], _ => none
  | p :: rest, k => if p.1 = k then some p.2 else mapLookup rest k

/-- Go map assignment `m[k] = v`: replace the binding of `k`, or add one. -/
def mapInsert : List (String × HilVariable) → String → HilVariable → List (String × HilVariable)
  | [], k, v => [(k, v)]
  | p :: rest, k, v => if p.1 = k then (k, v) :: rest else p :: mapInsert rest k v

/-- The first `switch reflect.TypeOf(val).Kind()` of `parseVariable`
(`evaluator/variable.go:42-51`): the `varType` string the parameter is
unconditionally overwritten with. -/
def reflectKindType : GoValue → String
  | .str _ => "string"
  | .list _ => "list"
  | .assoc _ => "map"
  | .int _ => "string"
  | .bool _ => "string"

/-- `reflect.TypeOf(x).Kind() == reflect.Map` on a decoded value. -/
def isAssoc : GoValue → Bool
  | .assoc _ => true
  | _ => false

mutual

/-- Embedding of `parseVariable` (`evaluator/variable.go:40-122`).  The
`varType` parameter is overwritten by the kind switch before any use; the
`"map"` case falls through to the `"list"` case, whose `s := reflect.ValueOf(val)`
then `s.Index(0)` panics (`none`) on a map value and on an empty slice. -/
def parseVariable (val : GoValue) (varType : String) : Option HilVariable :=
  let varType := reflectKindType val
  if varType = "string" then
    some (HilVariable.vString val)
  else
    -- varType is "map" or "list"; both run the slice-inspection branch.
    match val with
    | GoValue.list xs =>
      match xs with
      | [] => none
      | x :: _ =>
        if isAssoc x then
          (parseMapElems xs []).map HilVariable.vMap
        else
          (parseListElems xs).map HilVariable.vList
    | _ => none

/-- The list branch (`evaluator/variable.go:109-117`): coerce each element
with the hint cleared, in order; a panic in any element propagates. -/
def parseListElems : List GoValue → Option (List HilVariable)
  | [] => some []
  | x :: rest =>
    match parseVariable x "" with
    | none => none
    | some hv =>
      match parseListElems rest with
      | none => none
      | some hvs => some (hv :: hvs)

/-- The map-merge loop over the sequence's elements
(`evaluator/variable.go:95-104`): `ms.MapKeys()` panics (`none`) when an
element is not itself a map. -/
def parseMapElems : List GoValue → List (String × HilVariable) → Option (List (String × HilVariable))
  | [], acc => some acc
  | e :: rest, acc =>
    match e with
    | GoValue.assoc kvs =>
      match parsePairs kvs acc with
      | none => none
      | some acc2 => parseMapElems rest acc2
    | _ => none

/-- The inner loop over one map element's keys
(`evaluator/variable.go:99-103`): `variables[key] = parseVariable(value, "")`. -/
def parsePairs : List (String × GoValue) → List (String × HilVariable) → Option (List (String × HilVariable))
  | [], acc => some acc
  | p :: rest, acc =>
    match parseVariable p.2 "" with
    | none => none
    | some hv => parsePairs rest (mapInsert acc p.1 hv)

end

/-- One decoded `variable` block (`hclVariable`, `evaluator/variable.go:11-17`):
`Default == nil` is `none`. -/
structure HclVariable where
  name : String
  default : Option GoValue
  declaredType : String

/-- The inner loop of `detectVariables` (`evaluator/variable.go:28-34`):
skip declarations without a default, otherwise store the coerced default
under `"var." + name`; a coercion panic propagates. -/
def detectVarsInDoc : List HclVariable → List (String × HilVariable) → Option (List (String × HilVariable))
  | [], acc => some acc
  | v :: rest, acc =>
    match v.default with
    | none => detectVarsInDoc rest acc
    | some d =>
      match parseVariable d v.declaredType with
      | none => none
      | some hv => detectVarsInDoc rest (mapInsert acc ("var." ++ v.name) hv)

/-- The outer loop of `detectVariables` (`evaluator/variable.go:22-35`).
Each document enters as the outcome of `hcl.DecodeObject` on its `variable`
blocks (the decoder is an external library); a decode error is returned
immediately with no environment. -/
def detectVars : List (Except String (List HclVariable)) → List (String × HilVariable) →
    Option (Except String (List (String × HilVariable)))
  | [], acc => some (Except.ok acc)
  | Except.error e :: _, _ => some (Except.error e)
  | Except.ok vars :: rest, acc =>
    match detectVarsInDoc vars acc with
    | none => none
    | some acc2 => detectVars rest acc2

/-- Embedding of `detectVariables` (`evaluator/variable.go:19-38`). -/
def detectVariables (docs : List (Except String (List HclVariable))) :
    Option (Except String (List (String × HilVariable))) :=
  detectVars docs []

theorem parseVariable_str (s : String) (h : String) :
    parseVariable (GoValue.str s) h = some (HilVariable.vString (GoValue.str s)) := rfl

theorem parseVariable_assoc (kvs : List (String × GoValue)) (h : String) :
    parseVariable (GoValue.assoc kvs) h = none := rfl

theorem parseVariable_nil (h : String) : parseVariable (GoValue.list []) h = none := rfl

theorem parseVariable_cons_assoc (kvs : List (String × GoValue)) (rest : List GoValue)
    (h : String) :
    parseVariable (GoValue.list (GoValue.assoc kvs :: rest)) h =
      (parseMapElems (GoValue.assoc kvs :: rest) []).map HilVariable.vMap := rfl

theorem parseVariable_cons_nonassoc (x : GoValue) (rest : List GoValue) (h : String)
    (hx : isAssoc x = false) :
    parseVariable (GoValue.list (x :: rest)) h =
      (parseListElems (x :: rest)).map HilVariable.vList := by
  cases x <;> simp_all [parseVariable, isAssoc, reflectKindType]

theorem parseListElems_eq_mapM (xs : List GoValue) :
    parseListElems xs = xs.mapM (fun e => parseVariable e "") := by
  induction xs with
  | nil => rfl
  | cons x rest ih =>
    simp only [parseListElems, List.mapM_cons, ih]
    cases parseVariable x "" <;> cases rest.mapM (fun e => parseVariable e "") <;> rfl

/-- The key→value pairs of one decoded map element; empty on a non-map. -/
def goAssocPairs : GoValue → List (String × GoValue)
  | .assoc kvs => kvs
  | _ => []

/-- All key→value pairs of a sequence of map elements, in element order. -/
def flatPairs (xs : List GoValue) : List (String × GoValue) :=
  xs.flatMap goAssocPairs

/-- The value of the LAST binding of `k` among `kvs`, if any. -/
def lastPairValue : List (String × GoValue) → String → Option GoValue
  | [], _ => none
  | p :: rest, k =>
    match lastPairValue rest k with
    | some v => some v
    | none => if p.1 = k then some p.2 else none

theorem mapLookup_mapInsert (m : List (String × HilVariable)) (k' : String)
    (v : HilVariable) (k : String) :
    mapLookup (mapInsert m k' v) k = if k' = k then some v else mapLookup m k := by
  induction m with
  | nil => simp [mapLookup, mapInsert]
  | cons p rest ih =>
    by_cases hp : p.1 = k'
    · by_cases hk : k' = k
      · simp [mapInsert, mapLookup, hp, hk]
      · have hpk : ¬ p.1 = k := by rw [hp]; exact hk
        simp [mapInsert, mapLookup, hp, hk, hpk]
    · by_cases hpk : p.1 = k
      · have hk : ¬ k' = k := fun h => hp (by rw [hpk, h])
        have hk2 : ¬ k = k' := fun h => hk h.symm
        simp [mapInsert, mapLookup, hp, hpk, hk, hk2]
      · simp [mapInsert, mapLookup, hp, hpk, ih]

theorem lastPairValue_append (a b : List (String × GoValue)) (k : String) :
    lastPairValue (a ++ b) k =
      match lastPairValue b k with
      | some v => some v
      | none => lastPairValue a k := by
  induction a with
  | nil => cases hb : lastPairValue b k <;> simp [lastPairValue, hb]
  | cons p rest ih =>
    have step : lastPairValue ((p :: rest) ++ b) k =
        match lastPairValue (rest ++ b) k with
        | some v => some v
        | none => if p.1 = k then some p.2 else none := rfl
    rw [step, ih]
    cases hb : lastPairValue b k <;> cases hr : lastPairValue rest k <;>
      simp [lastPairValue, hr]

theorem parsePairs_lookup (kvs : List (String × GoValue))
    (acc out : List (String × HilVariable))
    (hp : parsePairs kvs acc = some out) (k : String) :
    mapLookup out k =
      match lastPairValue kvs k with
      | some v => parseVariable v ""
      | none => mapLookup acc k := by
  induction kvs generalizing acc with
  | nil =>
    simp only [parsePairs, Option.some.injEq] at hp
    subst hp
    simp [lastPairValue]
  | cons p rest ih =>
    simp only [parsePairs] at hp
    cases hpv : parseVariable p.2 "" with
    | none => rw [hpv] at hp; exact absurd hp (by simp)
    | some hv =>
      rw [hpv] at hp
      have := ih (mapInsert acc p.1 hv) hp
      rw [this]
      simp only [lastPairValue]
      cases lastPairValue rest k with
      | some v => simp
      | none =>
        by_cases hk : p.1 = k <;> simp [hk, mapLookup_mapInsert, hpv]

/-- Membership in a Go map after an assignment: an entry of `mapInsert m k v`
is the new binding or one of the old entries. -/
theorem mem_mapInsert (m : List (String × HilVariable)) (k : String) (v : HilVariable)
    (p : String × HilVariable) (hp : p ∈ mapInsert m k v) : p = (k, v) ∨ p ∈ m := by
  induction m with
  | nil => simpa [mapInsert] using hp
  | cons q rest ih =>
    by_cases hq : q.1 = k
    · simp only [mapInsert, if_pos hq, List.mem_cons] at hp
      rcases hp with h | h
      · exact Or.inl h
      · exact Or.inr (List.mem_cons_of_mem q h)
    · simp only [mapInsert, if_neg hq, List.mem_cons] at hp
      rcases hp with h | h
      · exact Or.inr (h ▸ List.mem_cons_self q rest)
      · rcases ih h with h2 | h2
        · exact Or.inl h2
        · exact Or.inr (List.mem_cons_of_mem q h2)

/-- Every entry produced by one document's variable loop comes from the
accumulator or from a declared variable with a non-absent default, coerced. -/
theorem detectVarsInDoc_mem (vars : List HclVariable)
    (acc out : List (String × HilVariable))
    (hd : detectVarsInDoc vars acc = some out)
    (p : String × HilVariable) (hp : p ∈ out) :
    p ∈ acc ∨ ∃ v ∈ vars, ∃ d, v.default = some d ∧
      p.1 = "var." ++ v.name ∧ parseVariable d v.declaredType = some p.2 := by
  induction vars generalizing acc with
  | nil =>
    simp only [detectVarsInDoc, Option.some.injEq] at hd
    subst hd
    exact Or.inl hp
  | cons v rest ih =>
    simp only [detectVarsInDoc] at hd
    cases hdef : v.default with
    | none =>
      simp only [hdef] at hd
      rcases ih acc hd with h | ⟨w, hw, d, hwd, hk, hpv⟩
      · exact Or.inl h
      · exact Or.inr ⟨w, List.mem_cons_of_mem v hw, d, hwd, hk, hpv⟩
    | some d =>
      simp only [hdef] at hd
      cases hpv : parseVariable d v.declaredType with
      | none => simp only [hpv] at hd; exact absurd hd (by simp)
      | some hv =>
        simp only [hpv] at hd
        rcases ih (mapInsert acc ("var." ++ v.name) hv) hd with h | ⟨w, hw, d2, hwd, hk, hpv2⟩
        · rcases mem_mapInsert _ _ _ _ h with h2 | h2
          · subst h2
            exact Or.inr ⟨v, List.mem_cons_self v rest, d, hdef, rfl, hpv⟩
          · exact Or.inl h2
        · exact Or.inr ⟨w, List.mem_cons_of_mem v hw, d2, hwd, hk, hpv2⟩

/-- Every entry produced by the whole loop comes from the accumulator or from
a declared variable, with a non-absent default, of a document that decoded. -/
theorem detectVars_mem (docs : List (Except String (List HclVariable)))
    (acc env : List (String × HilVariable))
    (hd : detectVars docs acc = some (Except.ok env))
    (p : String × HilVariable) (hp : p ∈ env) :
    p ∈ acc ∨ ∃ vars, Except.ok vars ∈ docs ∧ ∃ v ∈ vars, ∃ d, v.default = some d ∧
      p.1 = "var." ++ v.name ∧ parseVariable d v.declaredType = some p.2 := by
  induction docs generalizing acc with
  | nil =>
    simp only [detectVars, Option.some.injEq, Except.ok.injEq] at hd
    subst hd
    exact Or.inl hp
  | cons doc rest ih =>
    cases doc with
    | error e => simp [detectVars] at hd
    | ok vars =>
      simp only [detectVars] at hd
      cases hdoc : detectVarsInDoc vars acc with
      | none => rw [hdoc] at hd; exact absurd hd (by simp)
      | some acc2 =>
        rw [hdoc] at hd
        rcases ih acc2 hd with h | ⟨vars2, hv2, w, hw, d, hwd, hk, hpv⟩
        · rcases detectVarsInDoc_mem vars acc acc2 hdoc p h with h2 | ⟨w, hw, d, hwd, hk, hpv⟩
          · exact Or.inl h2
          · exact Or.inr ⟨vars, List.mem_cons_self _ rest, w, hw, d, hwd, hk, hpv⟩
        · exact Or.inr ⟨vars2, List.mem_cons_of_mem _ hv2, w, hw, d, hwd, hk, hpv⟩

/-- An error outcome of the loop is always one of the decode errors. -/
theorem detectVars_error (docs : List (Except String (List HclVariable)))
    (acc : List (String × HilVariable)) (e : String)
    (hd : detectVars docs acc = some (Except.error e)) : Except.error e ∈ docs := by
  induction docs generalizing acc with
  | nil => simp [detectVars] at hd
  | cons doc rest ih =>
    cases doc with
    | error e2 =>
      simp only [detectVars, Option.some.injEq, Except.error.injEq] at hd
      rw [hd]
      exact List.mem_cons_self _ rest
    | ok vars =>
      simp only [detectVars] at hd
      cases hdoc : detectVarsInDoc vars acc with
      | none => rw [hdoc] at hd; exact absurd hd (by simp)
      | some acc2 =>
        rw [hdoc] at hd
        exact List.mem_cons_of_mem _ (ih acc2 hd)

/-- A successful outcome of the loop means every document decoded. -/
theorem detectVars_ok (docs : List (Except String (List HclVariable)))
    (acc env : List (String × HilVariable))
    (hd : detectVars docs acc = some (Except.ok env)) :
    ∀ doc ∈ docs, ∃ vars, doc = Except.ok vars := by
  induction docs generalizing acc with
  | nil => simp
  | cons doc rest ih =>
    cases doc with
    | error e => simp [detectVars] at hd
    | ok vars =>
      simp only [detectVars] at hd
      cases hdoc : detectVarsInDoc vars acc with
      | none => rw [hdoc] at hd; exact absurd hd (by simp)
      | some acc2 =>
        rw [hdoc] at hd
        intro d hdm
        rcases List.mem_cons.mp hdm with h | h
        · exact ⟨vars, h⟩
        · exact ih acc2 hd d h

theorem parseMapElems_lookup (xs : List GoValue)
    (acc out : List (String × HilVariable))
    (hp : parseMapElems xs acc = some out) (k : String) :
    mapLookup out k =
      match lastPairValue (flatPairs xs) k with
      | some v => parseVariable v ""
      | none => mapLookup acc k := by
  induction xs generalizing acc with
  | nil =>
    simp only [parseMapElems, Option.some.injEq] at hp
    subst hp
    simp [flatPairs, lastPairValue]
  | cons e rest ih =>
    cases e with
    | assoc kvs =>
      simp only [parseMapElems] at hp
      cases hpp : parsePairs kvs acc with
      | none => rw [hpp] at hp; exact absurd hp (by simp)
      | some acc2 =>
        rw [hpp] at hp
        have hrest := ih acc2 hp
        have hpair := parsePairs_lookup kvs acc acc2 hpp k
        rw [hrest, hpair]
        have : flatPairs (GoValue.assoc kvs :: rest) = kvs ++ flatPairs rest := by
          simp [flatPairs, goAssocPairs]
        rw [this, lastPairValue_append]
        cases lastPairValue (flatPairs rest) k <;> cases lastPairValue kvs k <;> simp
    | str s => exact absurd hp (by simp [parseMapElems])
    | int n => exact absurd hp (by simp [parseMapElems])
    | bool b => exact absurd hp (by simp [parseMapElems])
    | list l => exact absurd hp (by simp [parseMapElems])

/-! ## Detection engine and AST accessors

The detector package's implementation files are not among the sources at
hand; only its tests are.  The definitions below are therefore modelled from
the design document (sections 4.1, 4.3, 4.4) and checked against the
behaviour pinned down by `detector/detector_test.go`. -/

/-- One reported finding (`issue.Issue`): type, message, 1-based line, file. -/
structure Issue where
  type : String
  message : String
  line : Nat
  file : String
deriving DecidableEq

/-- A rule invocation: receives the documents (by source path), the variable
environment and the module-ignore set, and returns its appended issues. -/
def Rule : Type :=
  List String → List (String × HilVariable) → List String → List Issue

/-- Modelled from the spec: `detect()` of the detection engine
(section 4.4), whose implementation file is not among the sources.  For every
rule name in the registry, in registration order: a name in
`ignoredRuleNames` is skipped entirely; otherwise the rule is invoked with
the documents, the environment and the module-ignore set, and its issues are
appended to the accumulator. -/
def detect (registry : List (String × Rule)) (ignoredRuleNames : List String)
    (docs : List String) (env : List (String × HilVariable))
    (ignoredModulePaths : List String) : List Issue :=
  match registry with
  | [] => []
  | r :: rest =>
    if r.1 ∈ ignoredRuleNames then
      detect rest ignoredRuleNames docs env ignoredModulePaths
    else
      r.2 docs env ignoredModulePaths ++
        detect rest ignoredRuleNames docs env ignoredModulePaths

/-- Modelled from the spec: the test rule `DetectMethodForTest`
(`detector/detector_test.go:94-101`) under the section 4.4 contract that a
rule must not visit an ignored module's items — it emits one fixed issue per
document whose source path is not in the module-ignore set. -/
def testRule : Rule := fun docs _ ignoredModulePaths =>
  (docs.filter (fun p => ¬ p ∈ ignoredModulePaths)).map
    (fun _ => ⟨"TEST", "this is test method", 1, ""⟩)

/-- The expression-evaluation error taxonomy of section 7. -/
inductive EvalError where
  | parseError
  | unresolvedReference
  | typeError
deriving DecidableEq

/-- Modelled from the spec: an already-parsed interpolation expression
(the `${...}` parser itself is an external collaborator): literal text, or a
single interpolation referencing a qualified name. -/
inductive HilExpr where
  | literal (text : String)
  | ref (name : String)

/-- The scalar text carried by a `TypeString` variable's payload. -/
def goScalarText : GoValue → String
  | .str s => s
  | .int n => toString n
  | .bool b => if b then "true" else "false"
  | _ => ""

/-- Modelled from the spec: `evalToString(expression, environment)`
(section 4.3), whose implementation file is not among the sources.  The
evaluated result must be a scalar string: a `List` or `Map` variant is a
`TypeError`, a reference to a name absent from the environment is an
`UnresolvedReferenceError`. -/
def evalToString (e : HilExpr) (env : List (String × HilVariable)) :
    Except EvalError String :=
  match e with
  | .literal s => Except.ok s
  | .ref n =>
    match mapLookup env n with
    | none => Except.error EvalError.unresolvedReference
    | some (HilVariable.vString v) => Except.ok (goScalarText v)
    | some (HilVariable.vList _) => Except.error EvalError.typeError
    | some (HilVariable.vMap _) => Except.error EvalError.typeError

/-- A source position (`token.Pos`): file, byte offset, line, column. -/
structure Pos where
  filename : String
  offset : Nat
  line : Nat
  column : Nat
deriving DecidableEq

/-- A literal token (`token.Token`): raw text plus source position. -/
structure Token where
  text : String
  pos : Pos
deriving DecidableEq

/-- The value node of an attribute: scalar literal, ordered sequence, or
associative (nested-block) value, mirroring the HCL AST's `LiteralType`,
`ListType` and `ObjectType`. -/
inductive HclVal where
  | literal (tok : Token)
  | listVal (elems : List HclVal)
  | objectVal (items : List (String × HclVal))

/-- The AST accessors' error taxonomy (section 7). -/
inductive AccessErr where
  | keyNotFound
  | notScalar
deriving DecidableEq

/-- The direct child attributes of an item (its associative value's items). -/
def childItems (item : String × HclVal) : List (String × HclVal) :=
  match item.2 with
  | HclVal.objectVal items => items
  | _ => []

/-- First direct child attribute named `k`, if any. -/
def findChild : List (String × HclVal) → String → Option (String × HclVal)
  | [], _ => none
  | c :: rest, k => if c.1 = k then some c else findChild rest k

/-- Modelled from the spec: `literalToken(item, key)` (section 4.1), whose
implementation file is not among the sources.  Searches the item's direct
child attributes for `key`: absent → `KeyNotFound`; present with an
ordered-sequence or associative value → `NotScalar`; otherwise the literal
token. -/
def literalToken (item : String × HclVal) (key : String) : Except AccessErr Token :=
  match findChild (childItems item) key with
  | none => Except.error AccessErr.keyNotFound
  | some c =>
    match c.2 with
    | HclVal.literal t => Except.ok t
    | _ => Except.error AccessErr.notScalar

/-! ## Claims -/

/-- Claim C1 (code bug): the claim says an empty-sequence default resolves to
an empty `List` and never faults, the shape inspection not indexing into the
empty sequence.  The code has no such guard: `s.Index(0)`
(`evaluator/variable.go:93`) is reached with `s.Len() == 0` and panics, so
resolution of `default = []` faults instead of producing an empty list. -/
theorem claim1_empty_sequence_faults :
    parseVariable (GoValue.list []) "list" = none ∧
    detectVariables [Except.ok [⟨"x", some (GoValue.list []), "list"⟩]] = none :=
  ⟨rfl, rfl⟩

/-- Claim C2 (counterexample): a default whose runtime shape is an associative
mapping itself (not a sequence wrapping maps) does not coerce to a `Map`
without faulting — the `"map"` case falls through to the slice branch, whose
`reflect.ValueOf(val).Index(0)` panics on a map value. -/
theorem claim2_counterexample :
    parseVariable (GoValue.assoc [("name", GoValue.str "test")]) "" = none := rfl

/-- Claim C2 (amended): a default whose runtime shape is an associative
mapping is classified `"map"` by the kind switch, but the subsequent
sequence-shape inspection faults on it; the merged `Map` result only arises
for sequence-wrapping-maps defaults (the shape the HCL decoder produces). -/
theorem claim2_assoc_classified_map_then_faults :
    ∀ (kvs : List (String × GoValue)) (h : String),
      reflectKindType (GoValue.assoc kvs) = "map" ∧
        parseVariable (GoValue.assoc kvs) h = none :=
  fun _ _ => ⟨rfl, rfl⟩

/-- Claim C3: a non-empty sequence whose first element is associative is the
map-default case: the result is a `Map` merging every element's key→value
pairs, an element later in the sequence overwriting an earlier one on key
collision, each merged value recursively coerced with the hint cleared; two
map elements both defining key `name` with values `a` then `b` resolve to
`b`. -/
theorem claim3_seq_of_maps_merges_last_wins :
    (∀ (kvs : List (String × GoValue)) (rest : List GoValue) (h : String),
      parseVariable (GoValue.list (GoValue.assoc kvs :: rest)) h =
        (parseMapElems (GoValue.assoc kvs :: rest) []).map HilVariable.vMap) ∧
    (∀ (xs : List GoValue) (h : String) (m : List (String × HilVariable)) (k : String),
      parseVariable (GoValue.list xs) h = some (HilVariable.vMap m) →
      mapLookup m k =
        match lastPairValue (flatPairs xs) k with
        | some v => parseVariable v ""
        | none => none) ∧
    parseVariable (GoValue.list [GoValue.assoc [("name", GoValue.str "a")],
        GoValue.assoc [("name", GoValue.str "b")]]) "" =
      some (HilVariable.vMap [("name", HilVariable.vString (GoValue.str "b"))]) := by
  refine ⟨fun kvs rest h => parseVariable_cons_assoc kvs rest h, ?_, rfl⟩
  intro xs h m k hp
  cases xs with
  | nil => exact absurd hp (by simp [parseVariable_nil])
  | cons x rest =>
    cases hx : isAssoc x with
    | false =>
      rw [parseVariable_cons_nonassoc x rest h hx] at hp
      cases hl : parseListElems (x :: rest) with
      | none => rw [hl] at hp; exact absurd hp (by simp)
      | some l => rw [hl] at hp; simp at hp
    | true =>
      cases x with
      | assoc kvs =>
        rw [parseVariable_cons_assoc kvs rest h] at hp
        cases hm : parseMapElems (GoValue.assoc kvs :: rest) [] with
        | none => rw [hm] at hp; exact absurd hp (by simp)
        | some m2 =>
          rw [hm] at hp
          simp only [Option.map_some', Option.some.injEq] at hp
          have hm2 : m2 = m := by
            cases hp
            rfl
          subst hm2
          rw [parseMapElems_lookup _ _ _ hm k]
          cases lastPairValue (flatPairs (GoValue.assoc kvs :: rest)) k <;>
            simp [mapLookup]
      | str s => simp [isAssoc] at hx
      | int n => simp [isAssoc] at hx
      | bool b => simp [isAssoc] at hx
      | list l => simp [isAssoc] at hx

/-- Witness for C3: the merge-lookup clause applied to the concrete two-map
sequence, the hypothesis discharged by evaluation. -/
theorem claim3_witness :
    mapLookup [("name", HilVariable.vString (GoValue.str "b"))] "name" =
      match lastPairValue (flatPairs [GoValue.assoc [("name", GoValue.str "a")],
          GoValue.assoc [("name", GoValue.str "b")]]) "name" with
      | some v => parseVariable v ""
      | none => none :=
  claim3_seq_of_maps_merges_last_wins.2.1
    [GoValue.assoc [("name", GoValue.str "a")], GoValue.assoc [("name", GoValue.str "b")]]
    "" [("name", HilVariable.vString (GoValue.str "b"))] "name" rfl

/-- Claim C4: a scalar-text default resolves to the `String` variant carrying
exactly the default text, whatever the declared type hint is: the hint never
overrides the shape-based classification. -/
theorem claim4_scalar_default_is_string :
    ∀ (s : String) (hint : String),
      parseVariable (GoValue.str s) hint = some (HilVariable.vString (GoValue.str s)) :=
  fun _ _ => rfl

/-- Claim C8: a non-empty sequence whose first element is not associative
coerces to the `List` of its recursively coerced (hint cleared) elements, in
exactly the original order (a fault in any element's coercion propagates). -/
theorem claim8_list_preserves_order :
    ∀ (x : GoValue) (rest : List GoValue) (hint : String),
      isAssoc x = false →
      parseVariable (GoValue.list (x :: rest)) hint =
        ((x :: rest).mapM (fun e => parseVariable e "")).map HilVariable.vList := by
  intro x rest hint hx
  rw [parseVariable_cons_nonassoc x rest hint hx, parseListElems_eq_mapM]

/-- Witness for C8: the order-preservation equation at a concrete two-element
string sequence. -/
theorem claim8_witness :
    isAssoc (GoValue.str "a") = false ∧
    parseVariable (GoValue.list [GoValue.str "a", GoValue.str "b"]) "" =
      (([GoValue.str "a", GoValue.str "b"]).mapM (fun e => parseVariable e "")).map
        HilVariable.vList :=
  ⟨rfl, claim8_list_preserves_order (GoValue.str "a") [GoValue.str "b"] "" rfl⟩

/-- Claim C10: the type-hint argument never influences coercion — the kind
switch overwrites it before any use, so `parseVariable` is constant in it,
fallback case included. -/
theorem claim10_hint_noninterference :
    ∀ (val : GoValue) (h1 h2 : String), parseVariable val h1 = parseVariable val h2 := by
  intro val h1 h2
  cases val <;> rfl

/-- Claim C5: `detect()` dispatches every registered rule in registration
order except those named in `ignoredRuleNames`, which are skipped entirely
(an empty result when the only rule is ignored); an ignored module path does
not suppress any rule — the rule still runs, but does not visit the ignored
module's items, yielding only the remaining documents' issues (the three
scenarios of `TestDetect`: 2, 1 and 0 issues). -/
theorem claim5_detect_dispatch :
    (∀ (registry : List (String × Rule)) (ign : List String) (docs : List String)
        (env : List (String × HilVariable)) (mign : List String),
      detect registry ign docs env mign =
        (registry.filter (fun r => ¬ r.1 ∈ ign)).flatMap (fun r => r.2 docs env mign)) ∧
    detect [("test_rule", testRule)] [] ["text.tf", "./tf_aws_ec2_instance"] [] [] =
      [⟨"TEST", "this is test method", 1, ""⟩, ⟨"TEST", "this is test method", 1, ""⟩] ∧
    detect [("test_rule", testRule)] [] ["text.tf", "./tf_aws_ec2_instance"] []
        ["./tf_aws_ec2_instance"] = [⟨"TEST", "this is test method", 1, ""⟩] ∧
    detect [("test_rule", testRule)] ["test_rule"] ["text.tf", "./tf_aws_ec2_instance"]
        [] [] = [] := by
  refine ⟨?_, by decide, by decide, by decide⟩
  intro registry ign docs env mign
  induction registry with
  | nil => rfl
  | cons r rest ih =>
    by_cases hr : r.1 ∈ ign
    · simp [detect, hr, ih]
    · simp [detect, hr, ih]

/-- Claim C6: `evalToString` returns the scalar text of a `String`-variant
result, fails with a type error when the result's variant is `List` or `Map`,
and fails with an unresolved-reference error when the referenced name is
absent from the environment (as for a variable declared without a default);
the three `TestEvalToString` scenarios are reproduced against environments
built by `detectVariables`. -/
theorem claim6_evalToString_taxonomy :
    (∀ (env : List (String × HilVariable)) (n : String),
      mapLookup env n = none →
        evalToString (HilExpr.ref n) env = Except.error EvalError.unresolvedReference) ∧
    (∀ (env : List (String × HilVariable)) (n : String) (xs : List HilVariable),
      mapLookup env n = some (HilVariable.vList xs) →
        evalToString (HilExpr.ref n) env = Except.error EvalError.typeError) ∧
    (∀ (env : List (String × HilVariable)) (n : String) (kvs : List (String × HilVariable)),
      mapLookup env n = some (HilVariable.vMap kvs) →
        evalToString (HilExpr.ref n) env = Except.error EvalError.typeError) ∧
    (∀ (env : List (String × HilVariable)) (n : String) (s : String),
      mapLookup env n = some (HilVariable.vString (GoValue.str s)) →
        evalToString (HilExpr.ref n) env = Except.ok s) ∧
    (detectVariables [Except.ok [⟨"text", some (GoValue.str "result"), ""⟩]] =
        some (Except.ok [("var.text", HilVariable.vString (GoValue.str "result"))]) ∧
      evalToString (HilExpr.ref "var.text")
        [("var.text", HilVariable.vString (GoValue.str "result"))] = Except.ok "result") ∧
    (detectVariables [Except.ok [⟨"text", some (GoValue.list [GoValue.str "result"]), ""⟩]] =
        some (Except.ok
          [("var.text", HilVariable.vList [HilVariable.vString (GoValue.str "result")])]) ∧
      evalToString (HilExpr.ref "var.text")
        [("var.text", HilVariable.vList [HilVariable.vString (GoValue.str "result")])] =
        Except.error EvalError.typeError) ∧
    (detectVariables [Except.ok [⟨"text", none, ""⟩]] = some (Except.ok []) ∧
      evalToString (HilExpr.ref "var.text") [] =
        Except.error EvalError.unresolvedReference) := by
  refine ⟨?_, ?_, ?_, ?_, ⟨rfl, rfl⟩, ⟨rfl, rfl⟩, ⟨rfl, rfl⟩⟩
  · intro env n hl
    simp [evalToString, hl]
  · intro env n xs hl
    simp [evalToString, hl]
  · intro env n kvs hl
    simp [evalToString, hl]
  · intro env n s hl
    simp [evalToString, hl, goScalarText]

/-- Witness for C6: each taxonomy clause applied at a concrete environment,
the lookup hypotheses discharged by evaluation. -/
theorem claim6_witness :
    evalToString (HilExpr.ref "var.missing") [] =
      Except.error EvalError.unresolvedReference ∧
    evalToString (HilExpr.ref "a") [("a", HilVariable.vList [])] =
      Except.error EvalError.typeError ∧
    evalToString (HilExpr.ref "a") [("a", HilVariable.vMap [])] =
      Except.error EvalError.typeError ∧
    evalToString (HilExpr.ref "a") [("a", HilVariable.vString (GoValue.str "s"))] =
      Except.ok "s" :=
  ⟨claim6_evalToString_taxonomy.1 [] "var.missing" rfl,
   claim6_evalToString_taxonomy.2.1 [("a", HilVariable.vList [])] "a" [] rfl,
   claim6_evalToString_taxonomy.2.2.1 [("a", HilVariable.vMap [])] "a" [] rfl,
   claim6_evalToString_taxonomy.2.2.2.1 [("a", HilVariable.vString (GoValue.str "s"))]
     "a" "s" rfl⟩

/-- Claim C7: `resolve` returns an error exactly for a document whose
`variable` blocks fail to decode (the decode error is propagated, with no
partial environment); an absent default never errors — the declaration is
silently excluded — and every entry of a returned environment is keyed
`"var." + name` for some declared variable with a non-absent default. -/
theorem claim7_resolve_error_taxonomy :
    (∀ (docs : List (Except String (List HclVariable))) (e : String),
      detectVariables docs = some (Except.error e) → Except.error e ∈ docs) ∧
    (∀ (docs : List (Except String (List HclVariable))) (env : List (String × HilVariable)),
      detectVariables docs = some (Except.ok env) →
        ∀ doc ∈ docs, ∃ vars, doc = Except.ok vars) ∧
    (∀ (docs : List (Except String (List HclVariable))) (env : List (String × HilVariable)),
      detectVariables docs = some (Except.ok env) →
        ∀ p ∈ env, ∃ vars, Except.ok vars ∈ docs ∧ ∃ v ∈ vars, ∃ d, v.default = some d ∧
          p.1 = "var." ++ v.name ∧ parseVariable d v.declaredType = some p.2) := by
  refine ⟨?_, ?_, ?_⟩
  · intro docs e hd
    exact detectVars_error docs [] e hd
  · intro docs env hd
    exact detectVars_ok docs [] env hd
  · intro docs env hd p hp
    rcases detectVars_mem docs [] env hd p hp with h | h
    · simp at h
    · exact h

/-- Witness for C7: the three clauses applied at concrete document lists,
the resolution hypotheses discharged by evaluation. -/
theorem claim7_witness :
    (Except.error "bad" ∈ ([Except.error "bad"] : List (Except String (List HclVariable)))) ∧
    (∀ doc ∈ ([Except.ok [⟨"a", some (GoValue.str "x"), ""⟩]] :
        List (Except String (List HclVariable))), ∃ vars, doc = Except.ok vars) ∧
    (∀ p ∈ ([("var.a", HilVariable.vString (GoValue.str "x"))] :
        List (String × HilVariable)),
      ∃ vars, Except.ok vars ∈ ([Except.ok [⟨"a", some (GoValue.str "x"), ""⟩]] :
          List (Except String (List HclVariable))) ∧
        ∃ v ∈ vars, ∃ d, v.default = some d ∧ p.1 = "var." ++ v.name ∧
          parseVariable d v.declaredType = some p.2) :=
  ⟨claim7_resolve_error_taxonomy.1 [Except.error "bad"] "bad" rfl,
   claim7_resolve_error_taxonomy.2.1 [Except.ok [⟨"a", some (GoValue.str "x"), ""⟩]]
     [("var.a", HilVariable.vString (GoValue.str "x"))] rfl,
   claim7_resolve_error_taxonomy.2.2 [Except.ok [⟨"a", some (GoValue.str "x"), ""⟩]]
     [("var.a", HilVariable.vString (GoValue.str "x"))] rfl⟩

/-- Claim C9: `literalToken(item, key)` returns the literal token (raw text
plus position) when `key` names a direct child attribute with a scalar
value, fails with `NotScalar` on an ordered-sequence or associative value,
and fails with `KeyNotFound` exactly when no direct child attribute has that
key; the four `TestHclLiteralToken` scenarios are reproduced. -/
theorem claim9_literalToken_taxonomy :
    (∀ (item : String × HclVal) (key : String) (c : String × HclVal) (t : Token),
      findChild (childItems item) key = some c → c.2 = HclVal.literal t →
        literalToken item key = Except.ok t) ∧
    (∀ (item : String × HclVal) (key : String),
      literalToken item key = Except.error AccessErr.keyNotFound ↔
        findChild (childItems item) key = none) ∧
    (∀ (item : String × HclVal) (key : String) (c : String × HclVal) (elems : List HclVal),
      findChild (childItems item) key = some c → c.2 = HclVal.listVal elems →
        literalToken item key = Except.error AccessErr.notScalar) ∧
    (∀ (item : String × HclVal) (key : String) (c : String × HclVal)
        (items : List (String × HclVal)),
      findChild (childItems item) key = some c → c.2 = HclVal.objectVal items →
        literalToken item key = Except.error AccessErr.notScalar) ∧
    literalToken ("resource", HclVal.objectVal [("instance_type",
        HclVal.literal ⟨"\"t2.micro\"", ⟨"", 47, 3, 21⟩⟩)]) "instance_type" =
      Except.ok ⟨"\"t2.micro\"", ⟨"", 47, 3, 21⟩⟩ ∧
    literalToken ("resource", HclVal.objectVal [("instance_type",
        HclVal.listVal [HclVal.literal ⟨"\"t2.micro\"", ⟨"", 48, 3, 22⟩⟩])]) "instance_type" =
      Except.error AccessErr.notScalar ∧
    literalToken ("resource", HclVal.objectVal [("instance_type",
        HclVal.objectVal [("default", HclVal.literal ⟨"\"t2.micro\"", ⟨"", 63, 4, 19⟩⟩)])])
        "instance_type" = Except.error AccessErr.notScalar ∧
    literalToken ("resource", HclVal.objectVal [("instance_type",
        HclVal.literal ⟨"\"t2.micro\"", ⟨"", 47, 3, 21⟩⟩)]) "ami_id" =
      Except.error AccessErr.keyNotFound := by
  refine ⟨?_, ?_, ?_, ?_, rfl, rfl, rfl, rfl⟩
  · intro item key c t hfc hc2
    simp [literalToken, hfc, hc2]
  · intro item key
    unfold literalToken
    cases hfc : findChild (childItems item) key with
    | none => simp
    | some c =>
      obtain ⟨ck, cv⟩ := c
      cases cv <;> simp
  · intro item key c elems hfc hc2
    simp [literalToken, hfc, hc2]
  · intro item key c items hfc hc2
    simp [literalToken, hfc, hc2]

/-- Witness for C9: the scalar-success clause applied at a concrete item,
both hypotheses discharged by evaluation. -/
theorem claim9_witness :
    literalToken ("resource", HclVal.objectVal [("volume_size",
        HclVal.literal ⟨"\"16\"", ⟨"", 81, 4, 23⟩⟩)]) "volume_size" =
      Except.ok ⟨"\"16\"", ⟨"", 81, 4, 23⟩⟩ :=
  claim9_literalToken_taxonomy.1
    ("resource", HclVal.objectVal [("volume_size",
      HclVal.literal ⟨"\"16\"", ⟨"", 81, 4, 23⟩⟩)]) "volume_size"
    ("volume_size", HclVal.literal ⟨"\"16\"", ⟨"", 81, 4, 23⟩⟩)
    ⟨"\"16\"", ⟨"", 81, 4, 23⟩⟩ rfl rfl
